import Mathlib

/-!
Shallow embedding of the buylist_bot repository: the text layout engine
(services/image_generator.py), the Datalab OCR polling client
(services/datalab_service.py), the OCR provider selector
(services/ocr_service.py) and the per-user confirmation state machine
(handlers/photo_handler.py, handlers/states.py), together with theorems
checking the specification's claims about them.

Text is modelled as `List Char`; Python string operations (`str.strip`,
`str.split`, `"\n".join`, `str.replace`) are embedded as executable
functions on character lists.
-/

set_option maxHeartbeats 1000000

abbrev Str := List Char

/-- Python whitespace characters, as recognised by `str.strip()` and
`str.split()` with no arguments (space, tab, newline, carriage return,
vertical tab, form feed). -/
def pyWhitespaceChar (c : Char) : Bool :=
  c == ' ' || c == '\t' || c == '\n' || c == '\r' || c == Char.ofNat 11 || c == Char.ofNat 12

/-- Python `s.strip()`: remove whitespace from both ends. -/
def pyStrip (s : Str) : Str :=
  ((s.dropWhile pyWhitespaceChar).reverse.dropWhile pyWhitespaceChar).reverse

/-- Worker for `pySplit`: `acc` holds the reversed characters of the word
currently being read. -/
def pySplitGo : Str → Str → List Str
  | acc, [] => if acc = [] then [] else [acc.reverse]
  | acc, c :: rest =>
    if pyWhitespaceChar c then
      if acc = [] then pySplitGo [] rest
      else acc.reverse :: pySplitGo [] rest
    else pySplitGo (c :: acc) rest

/-- Python `s.split()` with no argument: split on runs of whitespace,
discarding empty fields (so leading and trailing whitespace is ignored). -/
def pySplit (s : Str) : List Str := pySplitGo [] s

/-- Python `s.split("\n")`: split on every newline, keeping empty fields. -/
def splitNl (s : Str) : List Str := s.splitOn '\n'

/-- Python `"\n".join(lines)`. -/
def joinNl (lines : List Str) : Str := List.intercalate ['\n'] lines

/-- Python `" ".join(words)`. -/
def joinSp (words : List Str) : Str := List.intercalate [' '] words

/-- The fixpoint of the double-space replacement loop of
`ImageGenerator._clean_text`: every run of two or more spaces collapses to a
single space. -/
def collapseSpaces : Str → Str
  | [] => []
  | ' ' :: ' ' :: rest => collapseSpaces (' ' :: rest)
  | c :: rest => c :: collapseSpaces rest

/-- One iteration of the loop body of `ImageGenerator._clean_text`: strip the
line; if it is empty it is dropped (`if line:` fails), otherwise internal
space runs are collapsed and the line is kept. -/
def cleanLine (l : Str) : Option Str :=
  if pyStrip l = [] then none else some (collapseSpaces (pyStrip l))

/-- Embedding of `ImageGenerator._clean_text`: split on newlines, strip each line, drop
lines that are empty after stripping, collapse internal space runs, and
rejoin with newlines. -/
def clean_text (t : Str) : Str :=
  joinNl ((splitNl t).filterMap cleanLine)

/-- The word loop of `ImageGenerator._wrap_text` for one source line.
`measure` abstracts `draw.textbbox` width measurement of a candidate line;
`current` is the list of words of the line being assembled. -/
def wrapWordsCore (measure : Str → Nat) (maxW : Nat) : List Str → List Str → List (List Str)
  | current, [] => if current = [] then [] else [current]
  | current, w :: rest =>
    if measure (joinSp (current ++ [w])) ≤ maxW then
      wrapWordsCore measure maxW (current ++ [w]) rest
    else if current = [] then
      wrapWordsCore measure maxW [w] rest
    else
      current :: wrapWordsCore measure maxW [w] rest

/-- Wrapping of one non-blank source line in `ImageGenerator._wrap_text`:
split into words, greedily fill lines up to `maxW`, join each produced line
with single spaces. -/
def wrapLine (measure : Str → Nat) (maxW : Nat) (l : Str) : List Str :=
  (wrapWordsCore measure maxW [] (pySplit l)).map joinSp

/-- The `result_lines` accumulated by the loop of
`ImageGenerator._wrap_text`: each source line that is blank after stripping
contributes one empty output line; every other source line is word-wrapped
independently. -/
def wrapPieces (measure : Str → Nat) (maxW : Nat) (t : Str) : List Str :=
  (splitNl t).flatMap fun ol =>
    if pyStrip ol = [] then [([] : Str)] else wrapLine measure maxW ol

/-- Embedding of `ImageGenerator._wrap_text`: split on the source newlines and wrap each
line; `return result_lines if result_lines else [text]` falls back to the
whole text when nothing was produced. -/
def wrap_text (measure : Str → Nat) (maxW : Nat) (t : Str) : List Str :=
  if wrapPieces measure maxW t = [] then [t] else wrapPieces measure maxW t

/-- Image parameters fixed in `ImageGenerator.__init__`. -/
def genWidth : Nat := 1200

/-- Vertical and horizontal padding from `ImageGenerator.__init__`. -/
def genPadding : Nat := 60

/-- Line spacing from `ImageGenerator.__init__`. -/
def genLineSpacing : Nat := 20

/-- Font size from `ImageGenerator.__init__`. -/
def genFontSize : Nat := 48

/-- Embedding of `line_height = self.font_size + self.line_spacing` in
`ImageGenerator.create_image_with_text`. -/
def genLineHeight : Nat := genFontSize + genLineSpacing

/-- The geometry of `ImageGenerator.create_image_with_text`: the wrapped
lines and the computed canvas size (pixel content is not modelled). -/
structure RenderSpec where
  width : Nat
  height : Nat
  lines : List Str
deriving DecidableEq, Repr

/-- Embedding of `ImageGenerator.create_image_with_text`, restricted to its layout
computation: `None` on empty or whitespace-only input, otherwise the cleaned
text is wrapped at `width - 2 * padding` and the canvas is
`width × (len(lines) * line_height + 2 * padding + 40)`. -/
def create_image_with_text (measure : Str → Nat) (text : Str) : Option RenderSpec :=
  if pyStrip text = [] then none
  else
    let lines := wrap_text measure (genWidth - 2 * genPadding) (clean_text text)
    some ⟨genWidth, lines.length * genLineHeight + 2 * genPadding + 40, lines⟩

/-- Scanner for the tail of a candidate match of the regex `<[^>]+>` in
`escape_html_for_display`: consume characters up to and including the first
closing angle bracket, or fail if none remains. -/
def dropThroughGt : Str → Option Str
  | [] => none
  | '>' :: r => some r
  | _ :: r => dropThroughGt r

/-- Attempt to match `[^>]+>` at the current position (just after a literal
opening angle bracket): the first character must not be a closing bracket,
and the match extends to the first closing bracket. Returns the remainder of
the input after the match. -/
def tagEnd : Str → Option Str
  | [] => none
  | c :: r => if c = '>' then none else dropThroughGt r

/-- Fuelled worker for `re.sub(r'<[^>]+>', '', text)`: scan left to right,
deleting each leftmost non-overlapping match. The fuel bounds the number of
steps; `stripTags` supplies `length + 1`, which is sufficient because every
step consumes at least one input character. -/
def stripTagsGo : Nat → Str → Str
  | 0, s => s
  | _ + 1, [] => []
  | fuel + 1, c :: rest =>
    if c = '<' then
      match tagEnd rest with
      | some rest2 => stripTagsGo fuel rest2
      | none => '<' :: stripTagsGo fuel rest
    else c :: stripTagsGo fuel rest

/-- Embedding of `re.sub(r'<[^>]+>', '', text)` from `escape_html_for_display`. -/
def stripTags (s : Str) : Str := stripTagsGo (s.length + 1) s

/-- Per-character table of Python `html.escape(s, quote=True)`. -/
def escapeChar (c : Char) : Str :=
  if c = '&' then ['&', 'a', 'm', 'p', ';']
  else if c = '<' then ['&', 'l', 't', ';']
  else if c = '>' then ['&', 'g', 't', ';']
  else if c = Char.ofNat 34 then ['&', 'q', 'u', 'o', 't', ';']
  else if c = Char.ofNat 39 then ['&', '#', 'x', '2', '7', ';']
  else [c]

/-- Python `html.escape(s)` with default quoting: replace ampersand, the two
angle brackets, the double quote and the apostrophe by their entity names.
The sequential `str.replace` passes of the library function agree with this
per-character map because no replacement string contains a character that a
later pass rewrites. -/
def htmlEscape (s : Str) : Str := s.flatMap escapeChar

/-- Embedding of `escape_html_for_display` from `handlers/photo_handler.py`: first delete
raw tag-like sequences, then escape the remaining markup characters. -/
def escape_html_for_display (s : Str) : Str := htmlEscape (stripTags s)

/-- The FSM states declared in `handlers/states.py` (`TextConfirmation` and
`BackgroundUpload`). The aiogram framework represents the absence of a state
as `None`; sessions
therefore carry an `Option FsmState`. -/
inductive FsmState
  | waiting_for_confirmation
  | editing_text
  | waiting_for_background
deriving DecidableEq, Repr

/-- A per-user session as stored in the aiogram FSM context: the current
state and the `extracted_text` entry of the state data. `state.clear()`
resets both to `none`. -/
structure Session where
  state : Option FsmState
  extracted_text : Option Str
deriving DecidableEq, Repr

/-- Observable effects of the handlers in `handlers/photo_handler.py`,
in the order they are performed. Transport sends are abstract tags; the
payload is kept where a claim depends on it. -/
inductive BotAction
  | answer_alert
  | answer_toast
  | answer_created
  | delete_message
  | send_processing
  | edit_status
  | send_too_large
  | send_busy
  | download_file
  | ocr_extract (isPdf : Bool)
  | send_extract_failed
  | render_image (text : Str)
  | send_photo
  | send_render_failed
  | show_confirmation (display : Str)
  | show_edit_view (display : Str)
  | send_empty_edit_error
  | send_cancelled
deriving DecidableEq, Repr

/-- Embedding of `max_text_length = 3000` as set in `show_text_for_confirmation`,
`edit_text_handler`, `back_to_confirmation_handler` and
`process_edited_text`. -/
def max_text_length : Nat := 3000

/-- The display copy built by the confirmation and editing views:
`escape_html_for_display(extracted_text[:max_text_length])`. -/
def displayCopy (extracted : Str) : Str :=
  escape_html_for_display (extracted.take max_text_length)

/-- Embedding of `show_text_for_confirmation`: store the full text in the session data,
enter `waiting_for_confirmation`, delete the processing message
(best-effort) and show the truncated, escaped display copy. -/
def show_text_for_confirmation (extracted : Str) : Session × List BotAction :=
  (⟨some .waiting_for_confirmation, some extracted⟩,
    [.delete_message, .show_confirmation (displayCopy extracted)])

/-- Embedding of `create_image_from_text`: send a progress message, render the given text
(over the stored background, which does not affect the text payload), and on
success send the photo and delete the progress message; on render failure
report an error. `renderOk` abstracts whether `create_image_with_text`
returned an image. -/
def create_image_from_text (renderOk : Bool) (text : Str) : List BotAction :=
  if renderOk then
    [.send_processing, .render_image text, .send_photo, .delete_message]
  else
    [.send_processing, .render_image text, .send_render_failed]

/-- Embedding of `confirm_text_handler` body (runs only when the router dispatched the
callback, i.e. in state `waiting_for_confirmation`): read
`data.get("extracted_text", "")`; if empty, alert and clear; otherwise
delete the button message, render the stored text, clear the session and
acknowledge. -/
def confirm_text_handler (renderOk : Bool) (s : Session) : Session × List BotAction :=
  let extracted := s.extracted_text.getD []
  if extracted = [] then
    (⟨none, none⟩, [.answer_alert])
  else
    (⟨none, none⟩, [.delete_message] ++ create_image_from_text renderOk extracted ++ [.answer_created])

/-- Embedding of `edit_text_handler` body: read the stored text; if empty, alert and
clear; otherwise enter `editing_text` (keeping the stored text) and show the
truncated, escaped display copy in the edit view. -/
def edit_text_handler (s : Session) : Session × List BotAction :=
  let extracted := s.extracted_text.getD []
  if extracted = [] then
    (⟨none, none⟩, [.answer_alert])
  else
    (⟨some .editing_text, s.extracted_text⟩,
      [.show_edit_view (displayCopy extracted), .answer_toast])

/-- Embedding of `back_to_confirmation_handler` body: return to
`waiting_for_confirmation` without modifying the stored text and redisplay
the truncated, escaped copy. -/
def back_to_confirmation_handler (s : Session) : Session × List BotAction :=
  let extracted := s.extracted_text.getD []
  (⟨some .waiting_for_confirmation, s.extracted_text⟩,
    [.show_confirmation (displayCopy extracted), .answer_toast])

/-- Embedding of `cancel_text_handler` body: clear the session and report cancellation. -/
def cancel_text_handler (_s : Session) : Session × List BotAction :=
  (⟨none, none⟩, [.send_cancelled, .answer_toast])

/-- The four callback buttons of the confirmation dialog. -/
inductive Callback
  | confirm_text
  | edit_text
  | back_to_confirmation
  | cancel_text
deriving DecidableEq, Repr

/-- Router dispatch for callback queries, as registered in
`handlers/photo_handler.py`: `confirm_text` and `edit_text` carry
`StateFilter(TextConfirmation.waiting_for_confirmation)`,
`back_to_confirmation` carries `StateFilter(TextConfirmation.editing_text)`,
and `cancel_text` has no state filter. A callback matching no registered
handler leaves the update unhandled: the session is untouched and no reply
of any kind is produced. -/
def dispatch_callback (renderOk : Bool) (cb : Callback) (s : Session) : Session × List BotAction :=
  match cb with
  | .confirm_text =>
    if s.state = some .waiting_for_confirmation then confirm_text_handler renderOk s
    else (s, [])
  | .edit_text =>
    if s.state = some .waiting_for_confirmation then edit_text_handler s
    else (s, [])
  | .back_to_confirmation =>
    if s.state = some .editing_text then back_to_confirmation_handler s
    else (s, [])
  | .cancel_text => cancel_text_handler s

/-- Embedding of `process_edited_text` (dispatched only in state `editing_text`): strip
the message text; an empty result is rejected without changing the session;
otherwise the full stripped text replaces the stored text, the state returns
to `waiting_for_confirmation`, and the truncated, escaped copy is shown. -/
def process_edited_text (msgText : Str) (s : Session) : Session × List BotAction :=
  let edited := pyStrip msgText
  if edited = [] then
    (s, [.send_empty_edit_error])
  else
    (⟨some .waiting_for_confirmation, some edited⟩,
      [.show_confirmation (displayCopy edited)])

/-- Embedding of `IMAGE_MAX_SIZE = 10 * 1024 * 1024` from `config.py`. -/
def IMAGE_MAX_SIZE : Nat := 10 * 1024 * 1024

/-- Embedding of `PDF_MAX_SIZE = 50 * 1024 * 1024` from `config.py`. -/
def PDF_MAX_SIZE : Nat := 50 * 1024 * 1024

/-- Embedding of `POLLING_INTERVAL = 2` from `config.py` (seconds between polls; timing
itself is not modelled). -/
def POLLING_INTERVAL : Nat := 2

/-- Embedding of `MAX_POLLS = 300` from `config.py`. -/
def MAX_POLLS : Nat := 300

/-- A Telegram photo upload: only the metadata the handler inspects.
`file_size` is optional in the Bot API; `0` is falsy in the Python check. -/
structure UploadedPhoto where
  file_size : Option Nat
deriving DecidableEq, Repr

/-- A Telegram document upload: the metadata `handle_document` inspects. -/
structure UploadedDocument where
  file_size : Option Nat
  mime_type : Str
  file_name : Str
deriving DecidableEq, Repr

/-- Embedding of `IMAGE_MIME_TYPES` from `handlers/photo_handler.py`. -/
def IMAGE_MIME_TYPES : List Str :=
  ["image/jpeg".toList, "image/jpg".toList, "image/png".toList, "image/webp".toList]

/-- Embedding of `IMAGE_EXTENSIONS` from `handlers/photo_handler.py`. -/
def IMAGE_EXTENSIONS : List Str :=
  [".jpg".toList, ".jpeg".toList, ".png".toList, ".webp".toList]

/-- Embedding of `PDF_MIME_TYPES` from `handlers/photo_handler.py`. -/
def PDF_MIME_TYPES : List Str := ["application/pdf".toList]

/-- Embedding of `PDF_EXTENSIONS` from `handlers/photo_handler.py`. -/
def PDF_EXTENSIONS : List Str := [".pdf".toList]

/-- Python `str.lower()` (ASCII case folding suffices for the values the
handlers compare). -/
def pyLower (s : Str) : Str := s.map Char.toLower

/-- The truthiness-guarded size check `if file_size and file_size > limit`. -/
def sizeExceeds (fileSize : Option Nat) (limit : Nat) : Bool :=
  match fileSize with
  | some sz => sz != 0 && limit < sz
  | none => false

/-- Embedding of `process_image`: update the status message, call the OCR client, and
either report extraction failure (empty or absent text) without touching the
session or hand the text to `show_text_for_confirmation`. `ocrResult`
abstracts the value returned by the OCR client. -/
def process_image (ocrResult : Option Str) (s : Session) : Session × List BotAction :=
  let pre : List BotAction := [.edit_status, .ocr_extract false]
  match ocrResult with
  | none => (s, pre ++ [.send_extract_failed])
  | some t =>
    if pyStrip t = [] then (s, pre ++ [.send_extract_failed])
    else
      let r := show_text_for_confirmation t
      (r.1, pre ++ r.2)

/-- Embedding of `process_pdf`: identical to `process_image` but the OCR client is called
with `is_pdf=True`. -/
def process_pdf (ocrResult : Option Str) (s : Session) : Session × List BotAction :=
  let pre : List BotAction := [.edit_status, .ocr_extract true]
  match ocrResult with
  | none => (s, pre ++ [.send_extract_failed])
  | some t =>
    if pyStrip t = [] then (s, pre ++ [.send_extract_failed])
    else
      let r := show_text_for_confirmation t
      (r.1, pre ++ r.2)

/-- Embedding of `handle_photo`: a non-idle session is rejected with a busy notice (or
yielded to the background-upload handler); otherwise a processing message is
sent, the declared size is checked against `IMAGE_MAX_SIZE` before the file
is downloaded, and only then is the file downloaded and passed to
`process_image`. -/
def handle_photo (ocrResult : Option Str) (s : Session) (p : UploadedPhoto) : Session × List BotAction :=
  match s.state with
  | some st =>
    if st = .waiting_for_background then (s, [])
    else (s, [.send_busy])
  | none =>
    if sizeExceeds p.file_size IMAGE_MAX_SIZE then
      (s, [.send_processing, .send_too_large])
    else
      let r := process_image ocrResult s
      (r.1, [.send_processing, .download_file] ++ r.2)

/-- The image classification of `handle_document`. -/
def docIsImage (d : UploadedDocument) : Bool :=
  d.mime_type ∈ IMAGE_MIME_TYPES ||
    IMAGE_EXTENSIONS.any fun ext => ext.isSuffixOf (pyLower d.file_name)

/-- The PDF classification of `handle_document`. -/
def docIsPdf (d : UploadedDocument) : Bool :=
  d.mime_type ∈ PDF_MIME_TYPES ||
    PDF_EXTENSIONS.any fun ext => ext.isSuffixOf (pyLower d.file_name)

/-- Embedding of `handle_document`: any non-idle session is rejected with a busy notice;
unsupported formats are silently ignored; the declared size is checked
against the ceiling for the detected kind (PDF or image) before the file is
downloaded; only then is the file downloaded and passed to `process_pdf` or
`process_image`. -/
def handle_document (ocrResult : Option Str) (s : Session) (d : UploadedDocument) : Session × List BotAction :=
  match s.state with
  | some _ => (s, [.send_busy])
  | none =>
    if ¬docIsImage d ∧ ¬docIsPdf d then (s, [])
    else
      let maxSize := if docIsPdf d then PDF_MAX_SIZE else IMAGE_MAX_SIZE
      if sizeExceeds d.file_size maxSize then
        (s, [.send_processing, .send_too_large])
      else
        let r := if docIsPdf d then process_pdf ocrResult s else process_image ocrResult s
        (r.1, [.send_processing, .download_file] ++ r.2)

/-- One response observed by `DatalabService._poll_for_result`: an HTTP
error status, a network error (`aiohttp.ClientError`), or a JSON body whose
`status` field is `complete` (with its `success` flag and `markdown`
payload), `failed`, or anything else (the code treats every other status as
"processing"). -/
inductive PollResponse
  | non200
  | netError
  | complete (success : Bool) (markdown : Str)
  | failed
  | processing
deriving DecidableEq, Repr

/-- Classification of a response: `none` when the loop sleeps and retries,
`some r` when the loop returns `r` immediately. -/
def pollOutcome : PollResponse → Option (Option Str)
  | .complete true markdown => some (some markdown)
  | .complete false _ => some none
  | .failed => some none
  | .non200 => none
  | .netError => none
  | .processing => none

/-- The loop body of `DatalabService._poll_for_result`: `responses i` is the
response to the `i`-th GET; each non-terminal response consumes one unit of
fuel (one attempt) after sleeping `POLLING_INTERVAL`; exhausted fuel yields
`None` ("timeout"). -/
def poll_for_result_go (responses : Nat → PollResponse) : Nat → Nat → Option Str
  | _, 0 => none
  | i, fuel + 1 =>
    match pollOutcome (responses i) with
    | some r => r
    | none => poll_for_result_go responses (i + 1) fuel

/-- Embedding of `DatalabService._poll_for_result`: up to `MAX_POLLS` attempts starting
from the first response. -/
def poll_for_result (responses : Nat → PollResponse) : Option Str :=
  poll_for_result_go responses 0 MAX_POLLS

/-- The mutable fields of `OCRService` touched by `_switch_provider`. The
two backend objects are abstracted as optional tokens. -/
structure OCRServiceState where
  provider : Str
  datalab_service : Option Nat
  paddle_service : Option Nat
deriving DecidableEq, Repr

/-- The environment `_switch_provider` consults: whether `DATALAB_API_KEY`
is set, and the outcome of each backend constructor (`some token` when
construction succeeds, `none` when it raises). -/
structure SwitchEnv where
  datalab_api_key : Bool
  paddle_ctor : Option Nat
  datalab_ctor : Option Nat
deriving DecidableEq, Repr

/-- Embedding of `OCRService._switch_provider`: lower-case the target, reject unknown
kinds, short-circuit when the target equals the current provider and its
backend object exists, otherwise construct the new backend and install it
(discarding the other backend) only on success; on construction failure only
the slot of the failed constructor is reset. Returns the new state and the
success flag of the returned tuple. -/
def switch_provider (env : SwitchEnv) (st : OCRServiceState) (target : Str) : OCRServiceState × Bool :=
  let provider := pyLower target
  if provider ≠ "datalab".toList ∧ provider ≠ "paddle".toList then (st, false)
  else if provider = st.provider ∧
      ((provider = "paddle".toList ∧ st.paddle_service ≠ none) ∨
        (provider = "datalab".toList ∧ st.datalab_service ≠ none)) then
    (st, true)
  else if provider = "paddle".toList then
    match env.paddle_ctor with
    | some b => (⟨provider, none, some b⟩, true)
    | none => ({ st with paddle_service := none }, false)
  else
    if ¬env.datalab_api_key then (st, false)
    else
      match env.datalab_ctor with
      | some b => (⟨provider, some b, none⟩, true)
      | none => ({ st with datalab_service := none }, false)

/-- The backend `OCRService.extract_text` would use: the paddle slot when
the provider is `paddle`, the datalab slot otherwise. -/
def active_backend (st : OCRServiceState) : Option Nat :=
  if st.provider = "paddle".toList then st.paddle_service else st.datalab_service

/-- The texts handed to the layout engine within a list of actions: the
payloads of `render_image` actions. -/
def rendersOf (acts : List BotAction) : List Str :=
  acts.filterMap fun a =>
    match a with
    | .render_image t => some t
    | _ => none

/-- Whether an action is a reply the user can observe (any message send,
message edit shown to the user, or callback answer; downloads, OCR calls,
rendering and best-effort deletions are not user-visible reports). -/
def isUserReport (a : BotAction) : Bool :=
  match a with
  | .download_file => false
  | .ocr_extract _ => false
  | .render_image _ => false
  | .delete_message => false
  | _ => true

theorem pySplitGo_ws_cons (c : Char) (rest : Str) (h : pyWhitespaceChar c = true) :
    pySplitGo [] (c :: rest) = pySplitGo [] rest := by
  simp [pySplitGo, h]

theorem pySplitGo_nonws_cons (acc : Str) (c : Char) (rest : Str)
    (h : pyWhitespaceChar c = false) :
    pySplitGo acc (c :: rest) = pySplitGo (c :: acc) rest := by
  simp [pySplitGo, h]

theorem pySplitGo_allws :
    ∀ (t : Str), (∀ c ∈ t, pyWhitespaceChar c = true) → ∀ (acc : Str),
      pySplitGo acc t = if acc = [] then [] else [acc.reverse] := by
  intro t
  induction t with
  | nil => intro _ acc; rfl
  | cons c rest ih =>
    intro h acc
    have hc : pyWhitespaceChar c = true := h c (by simp)
    have hrest : ∀ d ∈ rest, pyWhitespaceChar d = true := fun d hd => h d (by simp [hd])
    by_cases hacc : acc = []
    · subst hacc
      simp only [pySplitGo, hc, if_true, if_pos rfl]
      rw [ih hrest []]
      simp
    · simp only [pySplitGo, hc, if_true, if_neg hacc]
      rw [ih hrest []]
      simp

theorem pySplitGo_ne_nil_of_acc :
    ∀ (s acc : Str), acc ≠ [] → pySplitGo acc s ≠ [] := by
  intro s
  induction s with
  | nil => intro acc h; simp [pySplitGo, h]
  | cons c rest ih =>
    intro acc h
    by_cases hc : pyWhitespaceChar c
    · simp [pySplitGo, hc, h]
    · rw [pySplitGo_nonws_cons acc c rest (by simpa using hc)]
      exact ih (c :: acc) (by simp)

theorem pySplit_ne_nil_of_nonws :
    ∀ (s : Str), (∃ c ∈ s, pyWhitespaceChar c = false) → pySplit s ≠ [] := by
  intro s
  induction s with
  | nil => intro h; simp at h
  | cons c rest ih =>
    intro h
    by_cases hc : pyWhitespaceChar c
    · have hrest : ∃ d ∈ rest, pyWhitespaceChar d = false := by
        obtain ⟨d, hd, hdws⟩ := h
        rcases List.mem_cons.mp hd with rfl | hd2
        · exact absurd hc (by simp [hdws])
        · exact ⟨d, hd2, hdws⟩
      rw [pySplit, pySplitGo_ws_cons c rest (by simpa using hc)]
      exact ih hrest
    · rw [pySplit, pySplitGo_nonws_cons [] c rest (by simpa using hc)]
      exact pySplitGo_ne_nil_of_acc rest [c] (by simp)

theorem pyStrip_eq_nil_of_allws (s : Str) (h : ∀ c ∈ s, pyWhitespaceChar c = true) :
    pyStrip s = [] := by
  have h1 : s.dropWhile pyWhitespaceChar = [] := List.dropWhile_eq_nil_iff.mpr h
  simp [pyStrip, h1]

theorem exists_nonws_of_pyStrip_ne_nil (s : Str) (h : pyStrip s ≠ []) :
    ∃ c ∈ s, pyWhitespaceChar c = false := by
  by_contra hcon
  push_neg at hcon
  exact h (pyStrip_eq_nil_of_allws s fun c hc => by
    have := hcon c hc
    simpa using this)

theorem pySplit_ne_nil_of_pyStrip (s : Str) (h : pyStrip s ≠ []) : pySplit s ≠ [] :=
  pySplit_ne_nil_of_nonws s (exists_nonws_of_pyStrip_ne_nil s h)

theorem pySplitGo_append_word :
    ∀ (w : Str), (∀ c ∈ w, pyWhitespaceChar c = false) → ∀ (acc rest : Str),
      pySplitGo acc (w ++ rest) = pySplitGo (w.reverse ++ acc) rest := by
  intro w
  induction w with
  | nil => intro _ acc rest; simp
  | cons c w2 ih =>
    intro hw acc rest
    have hc : pyWhitespaceChar c = false := hw c (by simp)
    have hw2 : ∀ d ∈ w2, pyWhitespaceChar d = false := fun d hd => hw d (by simp [hd])
    rw [List.cons_append, pySplitGo_nonws_cons acc c _ hc, ih hw2 (c :: acc) rest]
    simp

theorem pySplitGo_append_ws :
    ∀ (s t : Str), (∀ c ∈ t, pyWhitespaceChar c = true) → ∀ (acc : Str),
      pySplitGo acc (s ++ t) = pySplitGo acc s := by
  intro s
  induction s with
  | nil =>
    intro t ht acc
    rw [List.nil_append, pySplitGo_allws t ht acc]
    cases acc <;> simp [pySplitGo]
  | cons c rest ih =>
    intro t ht acc
    by_cases hc : pyWhitespaceChar c
    · by_cases hacc : acc = [] <;>
        simp [pySplitGo, hc, hacc, ih t ht]
    · rw [List.cons_append, pySplitGo_nonws_cons acc c _ (by simpa using hc),
        pySplitGo_nonws_cons acc c rest (by simpa using hc)]
      exact ih t ht (c :: acc)

theorem dropWhile_eq_pyStrip_append (s : Str) :
    ∃ t, (∀ c ∈ t, pyWhitespaceChar c = true) ∧
      s.dropWhile pyWhitespaceChar = pyStrip s ++ t := by
  refine ⟨((s.dropWhile pyWhitespaceChar).reverse.takeWhile pyWhitespaceChar).reverse, ?_, ?_⟩
  · intro c hc
    rw [List.mem_reverse] at hc
    exact List.mem_takeWhile_imp hc
  · conv_lhs => rw [← List.reverse_reverse (s.dropWhile pyWhitespaceChar),
      ← List.takeWhile_append_dropWhile pyWhitespaceChar (s.dropWhile pyWhitespaceChar).reverse]
    rw [List.reverse_append]
    rfl

theorem pySplit_dropWhile (s : Str) :
    pySplit (s.dropWhile pyWhitespaceChar) = pySplit s := by
  induction s with
  | nil => rfl
  | cons c rest ih =>
    by_cases hc : pyWhitespaceChar c
    · rw [List.dropWhile_cons_of_pos (by simpa using hc), ih]
      exact (pySplitGo_ws_cons c rest (by simpa using hc)).symm
    · rw [List.dropWhile_cons_of_neg (by simpa using hc)]

theorem pySplit_pyStrip (s : Str) : pySplit (pyStrip s) = pySplit s := by
  obtain ⟨t, ht, hdec⟩ := dropWhile_eq_pyStrip_append s
  have h1 : pySplit (s.dropWhile pyWhitespaceChar) = pySplit (pyStrip s) := by
    rw [hdec]
    exact pySplitGo_append_ws (pyStrip s) t ht []
  rw [← h1, pySplit_dropWhile]

theorem pySplitGo_collapseSpaces :
    ∀ (s acc : Str), pySplitGo acc (collapseSpaces s) = pySplitGo acc s := by
  intro s
  induction s using collapseSpaces.induct with
  | case1 => intro acc; rfl
  | case2 rest ih =>
    intro acc
    rw [collapseSpaces, ih acc]
    have hs : pyWhitespaceChar ' ' = true := rfl
    by_cases hacc : acc = [] <;> simp [pySplitGo, hs, hacc]
  | case3 c rest h1 ih =>
    intro acc
    rw [collapseSpaces.eq_3 c rest h1, ]
    by_cases hc : pyWhitespaceChar c
    · by_cases hacc : acc = [] <;> simp [pySplitGo, hc, hacc, ih]
    · rw [pySplitGo_nonws_cons acc c _ (by simpa using hc),
        pySplitGo_nonws_cons acc c rest (by simpa using hc)]
      exact ih (c :: acc)

theorem pySplit_cleanLine (l cl : Str) (h : cleanLine l = some cl) :
    pySplit cl = pySplit l := by
  unfold cleanLine at h
  split at h
  · exact absurd h (by simp)
  · have hcl : cl = collapseSpaces (pyStrip l) := by
      injection h with h2
      exact h2.symm
    subst hcl
    rw [show pySplit (collapseSpaces (pyStrip l)) = pySplit (pyStrip l) from
      pySplitGo_collapseSpaces (pyStrip l) []]
    exact pySplit_pyStrip l

theorem pySplitGo_words :
    ∀ (s acc : Str), (∀ c ∈ acc, pyWhitespaceChar c = false) →
      ∀ w ∈ pySplitGo acc s, w ≠ [] ∧ ∀ c ∈ w, pyWhitespaceChar c = false := by
  intro s
  induction s with
  | nil =>
    intro acc hacc w hw
    by_cases h : acc = []
    · simp [pySplitGo, h] at hw
    · simp only [pySplitGo, if_neg h, List.mem_singleton] at hw
      subst hw
      refine ⟨by simpa using h, fun c hc => hacc c (by simpa using hc)⟩
  | cons c rest ih =>
    intro acc hacc w hw
    by_cases hc : pyWhitespaceChar c
    · by_cases h : acc = []
      · subst h
        rw [pySplitGo_ws_cons c rest (by simpa using hc)] at hw
        exact ih [] (by simp) w hw
      · simp only [pySplitGo, if_pos hc, if_neg h, List.mem_cons] at hw
        rcases hw with rfl | hw
        · refine ⟨by simpa using h, fun d hd => hacc d (by simpa using hd)⟩
        · exact ih [] (by simp) w hw
    · rw [pySplitGo_nonws_cons acc c rest (by simpa using hc)] at hw
      refine ih (c :: acc) ?_ w hw
      intro d hd
      rcases List.mem_cons.mp hd with rfl | hd2
      · simpa using hc
      · exact hacc d hd2

theorem pySplit_words (s : Str) :
    ∀ w ∈ pySplit s, w ≠ [] ∧ ∀ c ∈ w, pyWhitespaceChar c = false :=
  pySplitGo_words s [] (by simp)

theorem joinSp_single (w : Str) : joinSp [w] = w := by
  simp [joinSp, List.intercalate]

theorem joinSp_cons (w w2 : Str) (rest : List Str) :
    joinSp (w :: w2 :: rest) = w ++ ' ' :: joinSp (w2 :: rest) := by
  simp [joinSp, List.intercalate, List.intersperse]

theorem pySplit_joinSp :
    ∀ (ws : List Str), (∀ w ∈ ws, w ≠ [] ∧ ∀ c ∈ w, pyWhitespaceChar c = false) →
      pySplit (joinSp ws) = ws := by
  intro ws
  induction ws with
  | nil => intro _; rfl
  | cons w rest ih =>
    intro h
    obtain ⟨hw, hwc⟩ := h w (by simp)
    cases rest with
    | nil =>
      rw [joinSp_single]
      have h1 : pySplit w = pySplitGo [] (w ++ []) := by simp [pySplit]
      rw [h1, pySplitGo_append_word w hwc [] []]
      simp [pySplitGo, hw]
    | cons w2 rest2 =>
      rw [joinSp_cons w w2 rest2]
      have h1 : pySplit (w ++ ' ' :: joinSp (w2 :: rest2)) =
          pySplitGo (w.reverse ++ []) (' ' :: joinSp (w2 :: rest2)) := by
        rw [pySplit, pySplitGo_append_word w hwc [] _]
      rw [h1]
      have hwr : w.reverse ++ [] ≠ [] := by simpa using hw
      have hs : pyWhitespaceChar ' ' = true := rfl
      simp only [pySplitGo, hs, if_true, if_neg hwr]
      rw [show pySplitGo [] (joinSp (w2 :: rest2)) = pySplit (joinSp (w2 :: rest2)) from rfl,
        ih (fun v hv => h v (by simp [hv]))]
      simp

theorem wrapWordsCore_flatten (measure : Str → Nat) (maxW : Nat) :
    ∀ (ws current : List Str),
      (wrapWordsCore measure maxW current ws).flatten = current ++ ws := by
  intro ws
  induction ws with
  | nil => intro current; by_cases h : current = [] <;> simp [wrapWordsCore, h]
  | cons w rest ih =>
    intro current
    by_cases h1 : measure (joinSp (current ++ [w])) ≤ maxW
    · simp [wrapWordsCore, h1, ih (current ++ [w])]
    · by_cases h2 : current = [] <;> simp [wrapWordsCore, h1, h2, ih [w]]

theorem wrapWordsCore_mem_ne_nil (measure : Str → Nat) (maxW : Nat) :
    ∀ (ws current l : List Str), l ∈ wrapWordsCore measure maxW current ws → l ≠ [] := by
  intro ws
  induction ws with
  | nil =>
    intro current l hl
    by_cases h : current = []
    · simp [wrapWordsCore, h] at hl
    · simp only [wrapWordsCore, if_neg h, List.mem_singleton] at hl
      subst hl; exact h
  | cons w rest ih =>
    intro current l hl
    by_cases h1 : measure (joinSp (current ++ [w])) ≤ maxW
    · rw [wrapWordsCore, if_pos h1] at hl
      exact ih (current ++ [w]) l hl
    · by_cases h2 : current = []
      · rw [wrapWordsCore, if_neg h1, if_pos h2] at hl
        exact ih [w] l hl
      · rw [wrapWordsCore, if_neg h1, if_neg h2] at hl
        rcases List.mem_cons.mp hl with rfl | hl2
        · exact h2
        · exact ih [w] l hl2

theorem wrapWordsCore_mem_sublist (measure : Str → Nat) (maxW : Nat) :
    ∀ (ws current l : List Str), l ∈ wrapWordsCore measure maxW current ws →
      l.Sublist (current ++ ws) := by
  intro ws
  induction ws with
  | nil =>
    intro current l hl
    by_cases h : current = []
    · simp [wrapWordsCore, h] at hl
    · simp only [wrapWordsCore, if_neg h, List.mem_singleton] at hl
      subst hl; simp
  | cons w rest ih =>
    intro current l hl
    by_cases h1 : measure (joinSp (current ++ [w])) ≤ maxW
    · rw [wrapWordsCore, if_pos h1] at hl
      have := ih (current ++ [w]) l hl
      simpa using this
    · by_cases h2 : current = []
      · rw [wrapWordsCore, if_neg h1, if_pos h2] at hl
        subst h2
        simpa using ih [w] l hl
      · rw [wrapWordsCore, if_neg h1, if_neg h2] at hl
        rcases List.mem_cons.mp hl with rfl | hl2
        · exact List.sublist_append_left l (w :: rest)
        · have h3 : l.Sublist ([w] ++ rest) := ih [w] l hl2
          have h4 : ([w] ++ rest).Sublist (current ++ ([w] ++ rest)) :=
            List.sublist_append_right current ([w] ++ rest)
          simpa using h3.trans h4

theorem wrapWordsCore_ne_nil (measure : Str → Nat) (maxW : Nat) :
    ∀ (ws current : List Str), current ≠ [] ∨ ws ≠ [] →
      wrapWordsCore measure maxW current ws ≠ [] := by
  intro ws
  induction ws with
  | nil =>
    intro current h
    rcases h with h | h
    · simp [wrapWordsCore, h]
    · simp at h
  | cons w rest ih =>
    intro current _
    by_cases h1 : measure (joinSp (current ++ [w])) ≤ maxW
    · rw [wrapWordsCore, if_pos h1]
      exact ih (current ++ [w]) (Or.inl (by simp))
    · by_cases h2 : current = []
      · rw [wrapWordsCore, if_neg h1, if_pos h2]
        exact ih [w] (Or.inl (by simp))
      · rw [wrapWordsCore, if_neg h1, if_neg h2]
        simp

theorem wrapLine_words_exact (measure : Str → Nat) (maxW : Nat) (p : Str) :
    ((wrapLine measure maxW p).map pySplit).flatten = pySplit p := by
  unfold wrapLine
  rw [List.map_map]
  have hmap : (wrapWordsCore measure maxW [] (pySplit p)).map (pySplit ∘ joinSp) =
      (wrapWordsCore measure maxW [] (pySplit p)).map id := by
    apply List.map_congr_left
    intro x hx
    have hsub : x.Sublist ([] ++ pySplit p) :=
      wrapWordsCore_mem_sublist measure maxW (pySplit p) [] x hx
    rw [List.nil_append] at hsub
    have hprops : ∀ w ∈ x, w ≠ [] ∧ ∀ c ∈ w, pyWhitespaceChar c = false :=
      fun w hw => pySplit_words p w (hsub.subset hw)
    exact pySplit_joinSp x hprops
  rw [hmap, List.map_id, wrapWordsCore_flatten measure maxW (pySplit p) []]
  simp

theorem mem_splitOn_not_mem (x : Char) :
    ∀ (t l : Str), l ∈ t.splitOn x → x ∉ l := by
  intro t
  induction t with
  | nil =>
    intro l hl
    simp only [List.splitOn, List.splitOnP_nil, List.mem_singleton] at hl
    subst hl; simp
  | cons c rest ih =>
    intro l hl
    rw [List.splitOn, List.splitOnP_cons] at hl
    by_cases hc : (c == x) = true
    · rw [if_pos hc] at hl
      rcases List.mem_cons.mp hl with rfl | hl2
      · simp
      · exact ih l hl2
    · rw [if_neg hc] at hl
      obtain ⟨h0, t0, heq⟩ : ∃ h0 t0, rest.splitOnP (· == x) = h0 :: t0 := by
        cases hr : rest.splitOnP (· == x) with
        | nil => exact absurd hr (List.splitOnP_ne_nil _ rest)
        | cons a b => exact ⟨a, b, rfl⟩
      rw [heq, List.modifyHead] at hl
      have hmem0 : h0 ∈ rest.splitOn x := by rw [List.splitOn, heq]; simp
      rcases List.mem_cons.mp hl with rfl | hl2
      · intro hx
        rcases List.mem_cons.mp hx with rfl | hx2
        · simp at hc
        · exact ih h0 hmem0 hx2
      · exact ih l (by rw [List.splitOn, heq]; simp [hl2])

theorem splitNl_no_newline (t l : Str) (h : l ∈ splitNl t) : '\n' ∉ l :=
  mem_splitOn_not_mem '\n' t l h

theorem collapseSpaces_subset : ∀ (s : Str) (c : Char), c ∈ collapseSpaces s → c ∈ s := by
  intro s
  induction s using collapseSpaces.induct with
  | case1 => intro c hc; simp [collapseSpaces] at hc
  | case2 rest ih =>
    intro c hc
    rw [collapseSpaces] at hc
    have := ih c hc
    simp only [List.mem_cons] at this ⊢
    tauto
  | case3 c0 rest h1 ih =>
    intro c hc
    rw [collapseSpaces.eq_3 c0 rest h1] at hc
    rcases List.mem_cons.mp hc with rfl | hc2
    · simp
    · simp [ih c hc2]

theorem collapseSpaces_ne_nil : ∀ (s : Str), s ≠ [] → collapseSpaces s ≠ [] := by
  intro s
  induction s using collapseSpaces.induct with
  | case1 => intro h; exact absurd rfl h
  | case2 rest ih =>
    intro _
    rw [collapseSpaces]
    exact ih (by simp)
  | case3 c0 rest h1 _ =>
    intro _
    rw [collapseSpaces.eq_3 c0 rest h1]
    simp

theorem pyStrip_subset (s : Str) : pyStrip s ⊆ s := by
  intro c hc
  unfold pyStrip at hc
  rw [List.mem_reverse] at hc
  have h1 : c ∈ (s.dropWhile pyWhitespaceChar).reverse :=
    (List.dropWhile_sublist _).subset hc
  rw [List.mem_reverse] at h1
  exact (List.dropWhile_sublist _).subset h1

theorem cleanLine_some_props (l cl : Str) (h : cleanLine l = some cl) :
    cl ≠ [] ∧ ('\n' ∉ l → '\n' ∉ cl) := by
  unfold cleanLine at h
  split at h
  · exact absurd h (by simp)
  · next hne =>
    have hcl : cl = collapseSpaces (pyStrip l) := by
      injection h with h2
      exact h2.symm
    subst hcl
    refine ⟨collapseSpaces_ne_nil _ hne, fun hnl hmem => ?_⟩
    exact hnl (pyStrip_subset l (collapseSpaces_subset _ _ hmem))

theorem splitNl_joinNl (ls : List Str) (h : ∀ l ∈ ls, '\n' ∉ l) (hne : ls ≠ []) :
    splitNl (joinNl ls) = ls :=
  List.splitOn_intercalate ls '\n' h hne

theorem splitNl_ne_nil (t : Str) : splitNl t ≠ [] :=
  List.splitOnP_ne_nil _ t

theorem wrapPieces_ne_nil (measure : Str → Nat) (maxW : Nat) (t : Str) :
    wrapPieces measure maxW t ≠ [] := by
  unfold wrapPieces
  cases hsplit : splitNl t with
  | nil => exact absurd hsplit (splitNl_ne_nil t)
  | cons l ls =>
    rw [List.flatMap_cons]
    apply List.append_ne_nil_of_left_ne_nil
    by_cases hb : pyStrip l = []
    · simp [hb]
    · rw [if_neg hb]
      unfold wrapLine
      have h1 : wrapWordsCore measure maxW [] (pySplit l) ≠ [] :=
        wrapWordsCore_ne_nil measure maxW (pySplit l) []
          (Or.inr (pySplit_ne_nil_of_pyStrip l hb))
      simpa using h1

theorem wrap_text_eq_pieces (measure : Str → Nat) (maxW : Nat) (t : Str) :
    wrap_text measure maxW t = wrapPieces measure maxW t := by
  unfold wrap_text
  rw [if_neg (wrapPieces_ne_nil measure maxW t)]

theorem filterMap_cleanLine_eq (ls : List Str) :
    ls.filterMap cleanLine =
      (ls.filter fun l => !(pyStrip l).isEmpty).map fun l => collapseSpaces (pyStrip l) := by
  induction ls with
  | nil => rfl
  | cons l ls2 ih =>
    by_cases h : pyStrip l = []
    · simp [cleanLine, h, ih]
    · simp [cleanLine, h, ih, List.isEmpty_iff]

theorem splitNl_clean_text (t : Str) (h : (splitNl t).filterMap cleanLine ≠ []) :
    splitNl (clean_text t) = (splitNl t).filterMap cleanLine := by
  rw [clean_text]
  refine splitNl_joinNl _ ?_ h
  intro l hl
  rw [List.mem_filterMap] at hl
  obtain ⟨p0, hp0, hc0⟩ := hl
  exact (cleanLine_some_props p0 l hc0).2 (splitNl_no_newline t p0 hp0)

theorem escapeChar_no_angle (a c : Char) (h : c ∈ escapeChar a) : c ≠ '<' ∧ c ≠ '>' := by
  unfold escapeChar at h
  split_ifs at h with h1 h2 h3 h4 h5
  · simp only [List.mem_cons, List.mem_singleton, List.not_mem_nil, or_false] at h
    rcases h with rfl | rfl | rfl | rfl | rfl <;> exact ⟨by decide, by decide⟩
  · simp only [List.mem_cons, List.mem_singleton, List.not_mem_nil, or_false] at h
    rcases h with rfl | rfl | rfl | rfl <;> exact ⟨by decide, by decide⟩
  · simp only [List.mem_cons, List.mem_singleton, List.not_mem_nil, or_false] at h
    rcases h with rfl | rfl | rfl | rfl <;> exact ⟨by decide, by decide⟩
  · simp only [List.mem_cons, List.mem_singleton, List.not_mem_nil, or_false] at h
    rcases h with rfl | rfl | rfl | rfl | rfl | rfl <;> exact ⟨by decide, by decide⟩
  · simp only [List.mem_cons, List.mem_singleton, List.not_mem_nil, or_false] at h
    rcases h with rfl | rfl | rfl | rfl | rfl | rfl <;> exact ⟨by decide, by decide⟩
  · simp only [List.mem_singleton] at h
    subst h
    exact ⟨h2, h3⟩

/-- C10: for every non-blank paragraph line given to the word-wrapping step,
concatenating the words of the wrapped output lines yields exactly the
paragraph's original word sequence — wrapping never loses, duplicates, or
reorders a word, for any font-measured widths. -/
theorem wrap_no_word_lost (measure : Str → Nat) (maxW : Nat) (p : Str)
    (_h : pyStrip p ≠ []) :
    ((wrapLine measure maxW p).map pySplit).flatten = pySplit p :=
  wrapLine_words_exact measure maxW p

/-- Witness for C10 at a concrete paragraph and measure. -/
theorem wrap_no_word_lost_witness :
    ((wrapLine (fun s => 10 * s.length) 30 ("Milk Eggs Bread".toList)).map pySplit).flatten =
      pySplit ("Milk Eggs Bread".toList) :=
  wrap_no_word_lost (fun s => 10 * s.length) 30 ("Milk Eggs Bread".toList) (by decide)

/-- C7: for every input text containing an explicit line break, normalizing
then word-wrapping never places words from two different input paragraphs
onto one visual output line: the words of every output line form a
contiguous selection from a single source paragraph. -/
theorem wrap_respects_paragraphs (measure : Str → Nat) (maxW : Nat) (t line : Str)
    (_hnl : '\n' ∈ t) (hline : line ∈ wrap_text measure maxW (clean_text t)) :
    ∃ p ∈ splitNl t, (pySplit line).Sublist (pySplit p) := by
  rw [wrap_text_eq_pieces] at hline
  unfold wrapPieces at hline
  rw [List.mem_flatMap] at hline
  obtain ⟨cp, hcp, hlinein⟩ := hline
  have hex : ∃ p, p ∈ splitNl t := by
    cases hsp : splitNl t with
    | nil => exact absurd hsp (splitNl_ne_nil t)
    | cons a b => exact ⟨a, hsp ▸ List.mem_cons_self a b⟩
  by_cases hb : pyStrip cp = []
  · rw [if_pos hb] at hlinein
    simp only [List.mem_singleton] at hlinein
    subst hlinein
    obtain ⟨p, hp⟩ := hex
    exact ⟨p, hp, by simp [pySplit, pySplitGo]⟩
  · rw [if_neg hb] at hlinein
    unfold wrapLine at hlinein
    rw [List.mem_map] at hlinein
    obtain ⟨wsx, hws, rfl⟩ := hlinein
    have hsub : wsx.Sublist (pySplit cp) := by
      have := wrapWordsCore_mem_sublist measure maxW (pySplit cp) [] wsx hws
      simpa using this
    have hsplit_join : pySplit (joinSp wsx) = wsx :=
      pySplit_joinSp wsx fun w hw => pySplit_words cp w (hsub.subset hw)
    cases hcl : (splitNl t).filterMap cleanLine with
    | nil =>
      exfalso
      have hct : clean_text t = [] := by rw [clean_text, hcl]; rfl
      rw [hct] at hcp
      have hcp2 : cp = [] := by
        have h2 : splitNl ([] : Str) = [[]] := by
          simp [splitNl, List.splitOn, List.splitOnP_nil]
        rw [h2, List.mem_singleton] at hcp
        exact hcp
      exact hb (by rw [hcp2]; rfl)
    | cons c0 cs0 =>
      have hsp : splitNl (clean_text t) = (splitNl t).filterMap cleanLine :=
        splitNl_clean_text t (by rw [hcl]; simp)
      rw [hsp] at hcp
      rw [List.mem_filterMap] at hcp
      obtain ⟨p, hp, hclp⟩ := hcp
      refine ⟨p, hp, ?_⟩
      rw [hsplit_join, ← pySplit_cleanLine p cp hclp]
      exact hsub

/-- Witness for C7: a two-paragraph text at a concrete measure. -/
theorem wrap_respects_paragraphs_witness :
    ∃ p ∈ splitNl ("Milk Eggs\nBread".toList),
      (pySplit ((wrap_text (fun s => 10 * s.length) 60
        (clean_text ("Milk Eggs\nBread".toList))).headI)).Sublist (pySplit p) := by
  refine wrap_respects_paragraphs (fun s => 10 * s.length) 60 ("Milk Eggs\nBread".toList) _
    (by decide) ?_
  decide

/-- C3 counterexample: in the input text consisting of the lines
`"a"`, `""`, `"b"`, the second line is empty before trimming, yet
normalization removes it entirely: the cleaned text is `"a\nb"` and no
blank-line marker survives, contradicting the claim that lines empty before
trimming are preserved as explicit blank-line markers. -/
theorem clean_text_drops_original_blank_line :
    (splitNl ['a', '\n', '\n', 'b'])[1]? = some [] ∧
    clean_text ['a', '\n', '\n', 'b'] = ['a', '\n', 'b'] ∧
    [] ∉ splitNl (clean_text ['a', '\n', '\n', 'b']) := by
  decide

/-- C3 as amended: normalization drops every line that is empty after
trimming, whether or not it was empty before trimming; the kept lines are
exactly the trimmed, space-collapsed non-blank lines in their original
order, none of them is empty, and (when any line survives) the normalized
text contains no blank-line marker at all. -/
theorem clean_text_blank_line_policy (t : Str) :
    (splitNl t).filterMap cleanLine =
      ((splitNl t).filter fun l => !(pyStrip l).isEmpty).map
        (fun l => collapseSpaces (pyStrip l)) ∧
    (∀ l ∈ (splitNl t).filterMap cleanLine, l ≠ []) ∧
    ((splitNl t).filterMap cleanLine ≠ [] →
      splitNl (clean_text t) = (splitNl t).filterMap cleanLine) := by
  refine ⟨filterMap_cleanLine_eq (splitNl t), ?_, splitNl_clean_text t⟩
  intro l hl
  rw [List.mem_filterMap] at hl
  obtain ⟨p0, _, hc0⟩ := hl
  exact (cleanLine_some_props p0 l hc0).1

/-- Witness for C3's amended statement at the counterexample input. -/
theorem clean_text_blank_line_policy_witness :
    splitNl (clean_text ['a', '\n', '\n', 'b']) =
      (splitNl ['a', '\n', '\n', 'b']).filterMap cleanLine :=
  (clean_text_blank_line_policy ['a', '\n', '\n', 'b']).2.2 (by decide)

/-- C5: for every string, the display-escaping function (which first strips
raw tag-like sequences and then escapes the remaining markup characters)
produces output containing no raw structural markup character: no unescaped
opening or closing angle bracket survives. -/
theorem escaped_display_no_raw_markup (s : Str) :
    '<' ∉ escape_html_for_display s ∧ '>' ∉ escape_html_for_display s := by
  unfold escape_html_for_display htmlEscape
  constructor
  · intro hmem
    rw [List.mem_flatMap] at hmem
    obtain ⟨a, _, ha⟩ := hmem
    exact (escapeChar_no_angle a '<' ha).1 rfl
  · intro hmem
    rw [List.mem_flatMap] at hmem
    obtain ⟨a, _, ha⟩ := hmem
    exact (escapeChar_no_angle a '>' ha).2 rfl

/-- C6: for every non-empty input text, the rendered canvas has the fixed
width 1200 and height equal to wrapped line count times (font size 48 plus
line spacing 20), plus twice the vertical padding 60, plus the fixed header
allowance 40. -/
theorem canvas_dimensions_formula (measure : Str → Nat) (t : Str) (h : pyStrip t ≠ []) :
    create_image_with_text measure t =
      some ⟨1200,
        (wrap_text measure (1200 - 2 * 60) (clean_text t)).length * (48 + 20) + 2 * 60 + 40,
        wrap_text measure (1200 - 2 * 60) (clean_text t)⟩ := by
  unfold create_image_with_text
  rw [if_neg h]
  rfl

/-- Witness for C6 at the three-line shopping list from the specification's
scenario. -/
theorem canvas_dimensions_formula_witness :
    create_image_with_text (fun s => 10 * s.length) ("Milk\nEggs\nBread".toList) =
      some ⟨1200,
        (wrap_text (fun s => 10 * s.length) (1200 - 2 * 60)
          (clean_text ("Milk\nEggs\nBread".toList))).length * (48 + 20) + 2 * 60 + 40,
        wrap_text (fun s => 10 * s.length) (1200 - 2 * 60)
          (clean_text ("Milk\nEggs\nBread".toList))⟩ :=
  canvas_dimensions_formula (fun s => 10 * s.length) ("Milk\nEggs\nBread".toList) (by decide)

theorem poll_go_no_terminal (responses : Nat → PollResponse) :
    ∀ (fuel start : Nat), (∀ i, i < fuel → pollOutcome (responses (start + i)) = none) →
      poll_for_result_go responses start fuel = none := by
  intro fuel
  induction fuel with
  | zero => intro start _; rfl
  | succ n ih =>
    intro start h
    have h0 : pollOutcome (responses start) = none := by
      have := h 0 (Nat.succ_pos n)
      simpa using this
    simp only [poll_for_result_go, h0]
    refine ih (start + 1) fun i hi => ?_
    have heq : start + 1 + i = start + (i + 1) := by omega
    rw [heq]
    exact h (i + 1) (by omega)

theorem poll_go_terminal (responses : Nat → PollResponse) :
    ∀ (fuel start j : Nat) (r : Option Str), j < fuel →
      (∀ i, i < j → pollOutcome (responses (start + i)) = none) →
      pollOutcome (responses (start + j)) = some r →
      poll_for_result_go responses start fuel = r := by
  intro fuel
  induction fuel with
  | zero => intro start j r h _ _; omega
  | succ n ih =>
    intro start j r hj hpre ht
    cases j with
    | zero =>
      have ht0 : pollOutcome (responses start) = some r := by simpa using ht
      simp only [poll_for_result_go, ht0]
    | succ j2 =>
      have h0 : pollOutcome (responses start) = none := by
        have := hpre 0 (Nat.succ_pos j2)
        simpa using this
      simp only [poll_for_result_go, h0]
      refine ih (start + 1) j2 r (by omega) (fun i hi => ?_) ?_
      · have heq : start + 1 + i = start + (i + 1) := by omega
        rw [heq]
        exact hpre (i + 1) (by omega)
      · have heq : start + 1 + j2 = start + (j2 + 1) := by omega
        rw [heq]
        exact ht

/-- C4: the polling loop has a fixed budget of `MAX_POLLS = 300` attempts;
every non-terminal response (a `processing` status, an HTTP error status, or
a network error) consumes exactly one attempt, so a terminal response at
position j is reached exactly when j attempts were consumed before it and
j is below the budget; if no terminal response occurs within the budget the
client returns an absent result. -/
theorem poll_budget_contract (responses : Nat → PollResponse) :
    MAX_POLLS = 300 ∧
    ((∀ i, i < MAX_POLLS → pollOutcome (responses i) = none) →
      poll_for_result responses = none) ∧
    (∀ (j : Nat) (r : Option Str), j < MAX_POLLS →
      (∀ i, i < j → pollOutcome (responses i) = none) →
      pollOutcome (responses j) = some r → poll_for_result responses = r) := by
  refine ⟨rfl, ?_, ?_⟩
  · intro h
    exact poll_go_no_terminal responses MAX_POLLS 0 fun i hi => by simpa using h i hi
  · intro j r hj hpre ht
    exact poll_go_terminal responses MAX_POLLS 0 j r hj
      (fun i hi => by simpa using hpre i hi) (by simpa using ht)

/-- Witness for C4: three hundred consecutive `processing` responses exhaust
the budget and the client reports an absent result. -/
theorem poll_budget_contract_witness :
    poll_for_result (fun _ => PollResponse.processing) = none :=
  (poll_budget_contract fun _ => PollResponse.processing).2.1 fun _ _ => rfl

/-- C1 as amended: when the session state is not `waiting_for_confirmation`,
a `confirm_text` callback matches no registered handler, so it is a no-op
that leaves the session (state and stored text) unchanged — but it is
silently ignored rather than reported as a user error. -/
theorem confirm_outside_confirmation_noop (renderOk : Bool) (s : Session)
    (h : s.state ≠ some FsmState.waiting_for_confirmation) :
    dispatch_callback renderOk .confirm_text s = (s, []) := by
  unfold dispatch_callback
  rw [if_neg h]

/-- Witness for C1's amended statement in the editing state. -/
theorem confirm_outside_confirmation_noop_witness :
    dispatch_callback true .confirm_text ⟨some .editing_text, some ['M', 'i', 'l', 'k']⟩ =
      (⟨some .editing_text, some ['M', 'i', 'l', 'k']⟩, []) :=
  confirm_outside_confirmation_noop true ⟨some .editing_text, some ['M', 'i', 'l', 'k']⟩
    (by decide)

/-- C1 counterexample: with a session in the editing state, a confirm
callback produces no user-visible reply at all (the action list is empty, so
in particular nothing reporting a user error), refuting the part of the
claim that says the no-op reports a user error to the user. The stored
text is indeed untouched. -/
theorem confirm_outside_confirmation_silent :
    (dispatch_callback true .confirm_text
      ⟨some .editing_text, some ['M', 'i', 'l', 'k']⟩).2.any isUserReport = false ∧
    (dispatch_callback true .confirm_text
      ⟨some .editing_text, some ['M', 'i', 'l', 'k']⟩).2 = [] ∧
    (dispatch_callback true .confirm_text
      ⟨some .editing_text, some ['M', 'i', 'l', 'k']⟩).1.extracted_text =
      some ['M', 'i', 'l', 'k'] := by
  decide

/-- C2: for every non-empty text E stored in the session at confirmation
time — including E beyond the 3000-character display cap — the confirm
handler passes exactly the full stored text to the layout engine; the
confirmation view stores the full text and displays only the escaped
3000-character prefix; an edit stores the full stripped text. -/
theorem confirm_renders_full_stored_text (renderOk : Bool) (E : Str) (h : E ≠ []) :
    rendersOf (dispatch_callback renderOk .confirm_text
      ⟨some .waiting_for_confirmation, some E⟩).2 = [E] ∧
    (show_text_for_confirmation E).1.extracted_text = some E ∧
    (show_text_for_confirmation E).2 =
      [.delete_message,
        .show_confirmation (escape_html_for_display (E.take max_text_length))] ∧
    (∀ (m : Str) (s0 : Session), pyStrip m ≠ [] →
      (process_edited_text m s0).1.extracted_text = some (pyStrip m)) := by
  refine ⟨?_, rfl, rfl, ?_⟩
  · unfold dispatch_callback
    rw [if_pos rfl]
    unfold confirm_text_handler
    simp only [Option.getD_some]
    rw [if_neg h]
    cases renderOk <;> simp [create_image_from_text, rendersOf]
  · intro m s0 hm
    unfold process_edited_text
    rw [if_neg hm]

/-- Witness for C2 with a stored text one character beyond the display
cap. -/
theorem confirm_renders_full_stored_text_witness :
    rendersOf (dispatch_callback true .confirm_text
      ⟨some .waiting_for_confirmation, some (List.replicate 3001 'a')⟩).2 =
      [List.replicate 3001 'a'] ∧
    (show_text_for_confirmation (List.replicate 3001 'a')).1.extracted_text =
      some (List.replicate 3001 'a') ∧
    (show_text_for_confirmation (List.replicate 3001 'a')).2 =
      [.delete_message,
        .show_confirmation
          (escape_html_for_display ((List.replicate 3001 'a').take max_text_length))] ∧
    (∀ (m : Str) (s0 : Session), pyStrip m ≠ [] →
      (process_edited_text m s0).1.extracted_text = some (pyStrip m)) :=
  confirm_renders_full_stored_text true (List.replicate 3001 'a')
    (List.ne_nil_of_length_pos (by rw [List.length_replicate]; omega))

/-- C8: a switch request whose lower-cased target is not one of the two
known kinds is rejected with the state unchanged; a switch to the
already-active kind whose backend object exists short-circuits with
success; otherwise the new backend is constructed and the old one discarded
only on construction success — whenever the switch reports failure (and the
current provider is one of the two known kinds), the provider selection and
the active backend are unchanged. -/
theorem switch_provider_contract (env : SwitchEnv) (st : OCRServiceState) (target : Str) :
    (pyLower target ≠ "datalab".toList → pyLower target ≠ "paddle".toList →
      switch_provider env st target = (st, false)) ∧
    ((pyLower target = "datalab".toList ∨ pyLower target = "paddle".toList) →
      pyLower target = st.provider → active_backend st ≠ none →
      switch_provider env st target = (st, true)) ∧
    ((st.provider = "datalab".toList ∨ st.provider = "paddle".toList) →
      (switch_provider env st target).2 = false →
      (switch_provider env st target).1.provider = st.provider ∧
      active_backend (switch_provider env st target).1 = active_backend st) ∧
    (∀ b, pyLower target = "paddle".toList → env.paddle_ctor = some b →
      ¬(pyLower target = st.provider ∧ st.paddle_service ≠ none) →
      switch_provider env st target = (⟨"paddle".toList, none, some b⟩, true)) ∧
    (∀ b, pyLower target = "datalab".toList → env.datalab_api_key = true →
      env.datalab_ctor = some b →
      ¬(pyLower target = st.provider ∧ st.datalab_service ≠ none) →
      switch_provider env st target = (⟨"datalab".toList, some b, none⟩, true)) := by
  refine ⟨?_, ?_, ?_, ?_, ?_⟩
  · intro ha hb
    simp only [switch_provider]
    rw [if_pos ⟨ha, hb⟩]
  · intro hv he hab
    have hnot : ¬(pyLower target ≠ "datalab".toList ∧ pyLower target ≠ "paddle".toList) := by
      rcases hv with h | h <;> simp [h]
    have hcond : pyLower target = st.provider ∧
        ((pyLower target = "paddle".toList ∧ st.paddle_service ≠ none) ∨
          (pyLower target = "datalab".toList ∧ st.datalab_service ≠ none)) := by
      refine ⟨he, ?_⟩
      rcases hv with h | h
      · right
        refine ⟨h, ?_⟩
        have hsp : st.provider = "datalab".toList := (he.symm.trans h)
        unfold active_backend at hab
        rw [hsp, if_neg (by decide)] at hab
        exact hab
      · left
        refine ⟨h, ?_⟩
        have hsp : st.provider = "paddle".toList := (he.symm.trans h)
        unfold active_backend at hab
        rw [hsp, if_pos rfl] at hab
        exact hab
    simp only [switch_provider]
    rw [if_neg hnot, if_pos hcond]
  · intro hwf hfail
    by_cases h1 : pyLower target ≠ "datalab".toList ∧ pyLower target ≠ "paddle".toList
    · have hsw : switch_provider env st target = (st, false) := by
        simp only [switch_provider]
        rw [if_pos h1]
      rw [hsw]
      exact ⟨rfl, rfl⟩
    · by_cases h2 : pyLower target = st.provider ∧
          ((pyLower target = "paddle".toList ∧ st.paddle_service ≠ none) ∨
            (pyLower target = "datalab".toList ∧ st.datalab_service ≠ none))
      · have hsw : switch_provider env st target = (st, true) := by
          simp only [switch_provider]
          rw [if_neg h1, if_pos h2]
        rw [hsw] at hfail
        simp at hfail
      · by_cases h3 : pyLower target = "paddle".toList
        · cases hp : env.paddle_ctor with
          | some b =>
            have hsw : switch_provider env st target =
                (⟨"paddle".toList, none, some b⟩, true) := by
              simp only [switch_provider]
              rw [if_neg h1, if_neg h2, if_pos h3, hp]
              simp [h3]
            rw [hsw] at hfail
            simp at hfail
          | none =>
            have hsw : switch_provider env st target =
                ({ st with paddle_service := none }, false) := by
              simp only [switch_provider]
              rw [if_neg h1, if_neg h2, if_pos h3, hp]
            rw [hsw]
            refine ⟨rfl, ?_⟩
            simp only [active_backend]
            by_cases hsp : st.provider = "paddle".toList
            · have hpe : pyLower target = st.provider := h3.trans hsp.symm
              have hpad : st.paddle_service = none := by
                by_contra hne
                exact h2 ⟨hpe, Or.inl ⟨h3, hne⟩⟩
              rw [if_pos hsp, if_pos hsp, hpad]
            · rw [if_neg hsp, if_neg hsp]
        · have hdl : pyLower target = "datalab".toList := by
            rcases not_and_or.mp h1 with h | h
            · simpa using h
            · exact absurd (by simpa using h) h3
          by_cases hkey : env.datalab_api_key = true
          · cases hd : env.datalab_ctor with
            | some b =>
              have hsw : switch_provider env st target =
                  (⟨"datalab".toList, some b, none⟩, true) := by
                simp only [switch_provider]
                rw [if_neg h1, if_neg h2, if_neg h3, if_neg (by simp [hkey]), hd]
                simp [hdl]
              rw [hsw] at hfail
              simp at hfail
            | none =>
              have hsw : switch_provider env st target =
                  ({ st with datalab_service := none }, false) := by
                simp only [switch_provider]
                rw [if_neg h1, if_neg h2, if_neg h3, if_neg (by simp [hkey]), hd]
              rw [hsw]
              refine ⟨rfl, ?_⟩
              simp only [active_backend]
              by_cases hsp : st.provider = "paddle".toList
              · rw [if_pos hsp, if_pos hsp]
              · have hspd : st.provider = "datalab".toList := by
                  rcases hwf with h | h
                  · exact h
                  · exact absurd h hsp
                have hpe : pyLower target = st.provider := hdl.trans hspd.symm
                have hds : st.datalab_service = none := by
                  by_contra hne
                  exact h2 ⟨hpe, Or.inr ⟨hdl, hne⟩⟩
                rw [if_neg hsp, if_neg hsp, hds]
          · have hsw : switch_provider env st target = (st, false) := by
              simp only [switch_provider]
              rw [if_neg h1, if_neg h2, if_neg h3, if_pos (by simp [hkey])]
            rw [hsw]
            exact ⟨rfl, rfl⟩
  · intro b h3 hp h2
    have hnot : ¬(pyLower target ≠ "datalab".toList ∧ pyLower target ≠ "paddle".toList) := by
      simp [h3]
    have hnot2 : ¬(pyLower target = st.provider ∧
        ((pyLower target = "paddle".toList ∧ st.paddle_service ≠ none) ∨
          (pyLower target = "datalab".toList ∧ st.datalab_service ≠ none))) := by
      rintro ⟨he, hor⟩
      rcases hor with ⟨_, hpad⟩ | ⟨hdl, _⟩
      · exact h2 ⟨he, hpad⟩
      · exact absurd (h3.symm.trans hdl) (by decide)
    simp only [switch_provider]
    rw [if_neg hnot, if_neg hnot2, if_pos h3, hp]
    simp [h3]
  · intro b hdl hkey hd h2
    have hnot : ¬(pyLower target ≠ "datalab".toList ∧ pyLower target ≠ "paddle".toList) := by
      simp [hdl]
    have hnot2 : ¬(pyLower target = st.provider ∧
        ((pyLower target = "paddle".toList ∧ st.paddle_service ≠ none) ∨
          (pyLower target = "datalab".toList ∧ st.datalab_service ≠ none))) := by
      rintro ⟨he, hor⟩
      rcases hor with ⟨hpd, _⟩ | ⟨_, hds⟩
      · exact absurd (hdl.symm.trans hpd) (by decide)
      · exact h2 ⟨he, hds⟩
    have h3 : ¬pyLower target = "paddle".toList := by
      rw [hdl]
      decide
    simp only [switch_provider]
    rw [if_neg hnot, if_neg hnot2, if_neg h3, if_neg (by simp [hkey]), hd]
    simp [hdl]

/-- Witness for C8: a switch request for the unknown kind `foo` is rejected
and leaves the service state unchanged. -/
theorem switch_provider_contract_witness :
    switch_provider ⟨true, some 1, some 2⟩ ⟨"datalab".toList, some 5, none⟩ "foo".toList =
      (⟨"datalab".toList, some 5, none⟩, false) :=
  (switch_provider_contract ⟨true, some 1, some 2⟩ ⟨"datalab".toList, some 5, none⟩
    "foo".toList).1 (by decide) (by decide)

/-- C9: an upload with a declared size above its configured ceiling (10 MB
for images, 50 MB for PDF documents) is rejected with a size error before
the file is downloaded, and the OCR client is never invoked for it — for
photos and for documents of either supported kind. -/
theorem oversize_upload_rejected (ocrResult : Option Str) (s : Session)
    (hs : s.state = none)
    (p : UploadedPhoto) (sz : Nat) (hp : p.file_size = some sz)
    (hsz : IMAGE_MAX_SIZE < sz)
    (d : UploadedDocument) (szd : Nat) (hd : d.file_size = some szd)
    (hkind : docIsImage d = true ∨ docIsPdf d = true)
    (hszd : (if docIsPdf d then PDF_MAX_SIZE else IMAGE_MAX_SIZE) < szd) :
    handle_photo ocrResult s p = (s, [.send_processing, .send_too_large]) ∧
    (∀ b, BotAction.ocr_extract b ∉ (handle_photo ocrResult s p).2) ∧
    BotAction.download_file ∉ (handle_photo ocrResult s p).2 ∧
    handle_document ocrResult s d = (s, [.send_processing, .send_too_large]) ∧
    (∀ b, BotAction.ocr_extract b ∉ (handle_document ocrResult s d).2) ∧
    BotAction.download_file ∉ (handle_document ocrResult s d).2 := by
  have hsz0 : sz ≠ 0 := by
    intro h0
    rw [h0] at hsz
    exact absurd hsz (by decide)
  have hphoto : handle_photo ocrResult s p = (s, [.send_processing, .send_too_large]) := by
    unfold handle_photo
    rw [hs]
    have hex : sizeExceeds p.file_size IMAGE_MAX_SIZE = true := by
      rw [hp]
      simp [sizeExceeds, hsz0, hsz]
    rw [hex]
    simp
  have hszd0 : szd ≠ 0 := by
    intro h0
    rw [h0] at hszd
    by_cases hpdf : docIsPdf d = true <;> simp [hpdf, PDF_MAX_SIZE, IMAGE_MAX_SIZE] at hszd
  have hdoc : handle_document ocrResult s d = (s, [.send_processing, .send_too_large]) := by
    unfold handle_document
    rw [hs]
    have hnk : ¬(¬docIsImage d ∧ ¬docIsPdf d) := by
      rcases hkind with h | h <;> simp [h]
    rw [if_neg hnk]
    have hex : sizeExceeds d.file_size (if docIsPdf d then PDF_MAX_SIZE else IMAGE_MAX_SIZE) =
        true := by
      rw [hd]
      simp only [sizeExceeds, Bool.and_eq_true, bne_iff_ne, ne_eq, decide_eq_true_eq]
      exact ⟨by simpa using hszd0, by simpa using hszd⟩
    simp [hex]
  refine ⟨hphoto, ?_, ?_, hdoc, ?_, ?_⟩
  · intro b
    rw [hphoto]
    simp
  · rw [hphoto]
    simp
  · intro b
    rw [hdoc]
    simp
  · rw [hdoc]
    simp

/-- Witness for C9: an 10 MB + 1 byte photo and a 50 MB + 1 byte PDF in an
idle session are both rejected without a download or an OCR call. -/
theorem oversize_upload_rejected_witness :
    handle_photo none ⟨none, none⟩ ⟨some 10485761⟩ =
      (⟨none, none⟩, [.send_processing, .send_too_large]) ∧
    (∀ b, BotAction.ocr_extract b ∉ (handle_photo none ⟨none, none⟩ ⟨some 10485761⟩).2) ∧
    BotAction.download_file ∉ (handle_photo none ⟨none, none⟩ ⟨some 10485761⟩).2 ∧
    handle_document none ⟨none, none⟩
        ⟨some 52428801, "application/pdf".toList, "list.pdf".toList⟩ =
      (⟨none, none⟩, [.send_processing, .send_too_large]) ∧
    (∀ b, BotAction.ocr_extract b ∉ (handle_document none ⟨none, none⟩
      ⟨some 52428801, "application/pdf".toList, "list.pdf".toList⟩).2) ∧
    BotAction.download_file ∉ (handle_document none ⟨none, none⟩
      ⟨some 52428801, "application/pdf".toList, "list.pdf".toList⟩).2 :=
  oversize_upload_rejected none ⟨none, none⟩ rfl ⟨some 10485761⟩ 10485761 rfl (by decide)
    ⟨some 52428801, "application/pdf".toList, "list.pdf".toList⟩ 52428801 rfl
    (Or.inr (by decide)) (by decide)
